import Mathlib

/-!
Verification of the macpst message-extraction and post-processing pipeline.

Shallow embedding of:
  * `src/macpst/core/pst_parser.py`   (header validation, per-folder message discovery)
  * `src/macpst/utils/filters.py`     (MessageFilter, DuplicateDetector)
  * `src/macpst/core/batch_processor.py` (sequential batch orchestration, progress tracking)

Python strings are modelled as Lean `String` (`str.lower` as `String.toLower`,
`str.strip` as trimming whitespace on both ends, substring membership `in` as
`strContainsSub`).  Python `datetime` values are modelled by the `PyDateTime`
structure with lexicographic comparison.  Machine integers in the header are
plain `Nat` with explicit little-endian recombination.  Python exceptions are
modelled with `Except String`.
-/

/-- Python `needle in hay` for strings: substring containment. -/
def strContainsSub (hay needle : String) : Bool :=
  (List.range (hay.toList.length + 1)).any
    (fun i => needle.toList.isPrefixOf (hay.toList.drop i))

/-- Python `s.lower()` (ASCII case folding, character by character). -/
def pyLower (s : String) : String := ⟨s.toList.map Char.toLower⟩

/-- Lexicographic comparison of character lists by code point. -/
def charListLe : List Char → List Char → Bool
  | [], _ => true
  | _ :: _, [] => false
  | a :: as, b :: bs => if a < b then true else if b < a then false else charListLe as bs

/-- Python string comparison `a <= b` (lexicographic by code point). -/
def strLe (a b : String) : Bool := charListLe a.toList b.toList

/-- Python `s.split(sep)` for a single-character separator, on the character
list: splits at every occurrence, keeping empty pieces. -/
def splitOnChar (sep : Char) : List Char → List (List Char)
  | [] => [[]]
  | x :: xs =>
    match splitOnChar sep xs with
    | [] => [[x]]
    | h :: t => if x = sep then [] :: h :: t else (x :: h) :: t

/-- Python `s.strip()`: remove leading and trailing whitespace. -/
def pyStrip (s : String) : String :=
  ⟨(s.toList.dropWhile Char.isWhitespace).reverse.dropWhile Char.isWhitespace |>.reverse⟩

/-- Model of Python `datetime`: the seven components relevant to the program. -/
structure PyDateTime where
  year : Nat
  month : Nat
  day : Nat
  hour : Nat
  minute : Nat
  second : Nat
  microsecond : Nat
deriving DecidableEq, Repr

/-- Python `datetime` comparison `a < b`: lexicographic on the components. -/
def pyDateTimeLt (a b : PyDateTime) : Bool :=
  if a.year ≠ b.year then a.year < b.year
  else if a.month ≠ b.month then a.month < b.month
  else if a.day ≠ b.day then a.day < b.day
  else if a.hour ≠ b.hour then a.hour < b.hour
  else if a.minute ≠ b.minute then a.minute < b.minute
  else if a.second ≠ b.second then a.second < b.second
  else a.microsecond < b.microsecond

/-- Left-pad the decimal representation of `n` with zeros to width `w`. -/
def padZeros (w : Nat) (n : Nat) : String :=
  let s := toString n
  ⟨List.replicate (w - s.length) '0'⟩ ++ s

/-- Python `datetime.isoformat()`: `YYYY-MM-DDTHH:MM:SS` with a
`.ffffff` microsecond suffix exactly when the microsecond field is nonzero. -/
def PyDateTime.isoformat (d : PyDateTime) : String :=
  padZeros 4 d.year ++ "-" ++ padZeros 2 d.month ++ "-" ++ padZeros 2 d.day ++
  "T" ++ padZeros 2 d.hour ++ ":" ++ padZeros 2 d.minute ++ ":" ++ padZeros 2 d.second ++
  (if d.microsecond ≠ 0 then "." ++ padZeros 6 d.microsecond else "")

/-- Attachment descriptor: the dict `{'name': ..., 'size': ..., 'type': ...}`
built by `PSTParser._get_attachments`. -/
structure PSTAttachment where
  name : String
  size : Nat
  type : String
deriving DecidableEq, Repr

/-- The `EmailMessage` dataclass of `pst_parser.py`. -/
structure EmailMessage where
  subject : String
  sender : String
  recipients : List String
  cc_recipients : List String := []
  bcc_recipients : List String := []
  body_text : String := ""
  body_html : String := ""
  sent_time : Option PyDateTime := none
  received_time : Option PyDateTime := none
  attachments : List PSTAttachment := []
  message_id : String := ""
  folder_path : String := ""
deriving DecidableEq, Repr

namespace PSTParser

/-- `PSTParser.PST_SIGNATURE = b'!BDN'` as bytes. -/
def PST_SIGNATURE : List Nat := [0x21, 0x42, 0x44, 0x4E]

/-- `PSTParser.UNICODE_PST = 0x17`. -/
def UNICODE_PST : Nat := 0x17

/-- `PSTParser.ANSI_PST = 0x0E`. -/
def ANSI_PST : Nat := 0x0E

/-- `struct.unpack('<H', bs)`: requires exactly two bytes, yields the
little-endian 16-bit value; otherwise raises `struct.error`. -/
def unpack_u16le (bs : List Nat) : Except String Nat :=
  match bs with
  | [lo, hi] => Except.ok (lo + 256 * hi)
  | _ => Except.error "unpack requires a buffer of 2 bytes"

/-- `PSTParser._validate_file` on the file's bytes: the existence and
regular-file checks are outside the embedding; the signature check compares
the first 4 bytes with `PST_SIGNATURE` and raises `ValueError` on mismatch. -/
def validate_file (data : List Nat) : Except String Unit :=
  if data.take 4 = PST_SIGNATURE then Except.ok ()
  else Except.error "Invalid PST file signature"

/-- The `self.header` dict assembled by `_read_header`. -/
structure PSTHeader where
  signature : List Nat
  file_type : Nat
  is_unicode : Bool
  file_size : Nat
deriving DecidableEq, Repr

/-- `PSTParser._read_header` on the file's bytes: read the first 512 bytes,
re-check the signature, decode the little-endian 16-bit type code at offset
10, and classify Unicode vs ANSI, raising on any other code. -/
def read_header (data : List Nat) : Except String PSTHeader :=
  let header_data := data.take 512
  let signature := header_data.take 4
  if signature ≠ PST_SIGNATURE then
    Except.error "Invalid PST signature in header"
  else
    match unpack_u16le ((header_data.drop 10).take 2) with
    | Except.error e => Except.error e
    | Except.ok file_type =>
      if file_type = UNICODE_PST then
        Except.ok ⟨signature, file_type, true, data.length⟩
      else if file_type = ANSI_PST then
        Except.ok ⟨signature, file_type, false, data.length⟩
      else
        Except.error ("Unsupported PST file type: " ++ toString file_type)

/-- Opening a PST file: `PSTParser(path)` runs `_validate_file`, then
`open()` runs `_read_header`.  Yields the parsed header. -/
def open_pst (data : List Nat) : Except String PSTHeader :=
  match validate_file data with
  | Except.error e => Except.error e
  | Except.ok _ => read_header data

end PSTParser

namespace PSTParser

/-- A native pypff item as seen by `_extract_messages_from_folder`:
`is_email_attrs` records whether any email-shaped attribute exists
(`_is_email_item`), and `converted` is the result of
`_convert_to_email_message` (`none` when conversion raises and returns
`None`). -/
structure PFFItem where
  is_email_attrs : Bool
  converted : Option EmailMessage
deriving DecidableEq, Repr

/-- A native pypff folder as probed by `_extract_messages_from_folder`: each
capability is `none` when the attribute is absent, otherwise the indexed item
list; an individual entry is `none` when the getter returns a falsy value or
raises (both are skipped by the per-item guards). -/
structure PFFFolder where
  sub_messages : Option (List (Option PFFItem)) := none
  sub_items : Option (List (Option PFFItem)) := none
  messages : Option (List (Option PFFItem)) := none
deriving DecidableEq, Repr

/-- The per-item body shared by the three strategy loops: skip absent items,
optionally require the email-shaped check (`_is_email_item`, strategy 2 only),
then yield the converted message when conversion succeeds.  The `Nat`
component threads the `messages_found` counter. -/
def yieldItems (only_email : Bool) : List (Option PFFItem) → Nat × List EmailMessage →
    Nat × List EmailMessage
  | [], st => st
  | item? :: rest, (messages_found, out) =>
    match item? with
    | none => yieldItems only_email rest (messages_found, out)
    | some item =>
      if only_email ∧ ¬item.is_email_attrs then
        yieldItems only_email rest (messages_found, out)
      else
        match item.converted with
        | some email_msg => yieldItems only_email rest (messages_found + 1, out ++ [email_msg])
        | none => yieldItems only_email rest (messages_found, out)

/-- `PSTParser._extract_messages_from_folder`: method 1 (`sub_messages`),
then method 2 (`sub_items` filtered to email-shaped items), then — only when
`messages_found` is still zero — method 3 (legacy `messages`). -/
def extract_messages_from_folder (folder : PFFFolder) : List EmailMessage :=
  let st0 : Nat × List EmailMessage := (0, [])
  let st1 :=
    match folder.sub_messages with
    | some items => yieldItems false items st0
    | none => st0
  let st2 :=
    match folder.sub_items with
    | some items => yieldItems true items st1
    | none => st1
  let st3 :=
    if st2.1 = 0 then
      match folder.messages with
      | some items => yieldItems false items st2
      | none => st2
    else st2
  st3.2

/-- Strategy 1 in isolation: the messages produced from the `sub_messages`
capability. -/
def methodSubMessages (folder : PFFFolder) : List EmailMessage :=
  match folder.sub_messages with
  | some items => (yieldItems false items (0, [])).2
  | none => []

/-- Strategy 2 in isolation: the messages produced from the `sub_items`
capability, filtered to email-shaped items. -/
def methodSubItems (folder : PFFFolder) : List EmailMessage :=
  match folder.sub_items with
  | some items => (yieldItems true items (0, [])).2
  | none => []

/-- Strategy 3 in isolation: the messages produced from the legacy
`messages` capability. -/
def methodLegacyMessages (folder : PFFFolder) : List EmailMessage :=
  match folder.messages with
  | some items => (yieldItems false items (0, [])).2
  | none => []

/-- The discovery order asserted by the specification: the first strategy
yielding at least one message wins and later strategies are skipped for the
folder. -/
def claimedExtractFromFolder (folder : PFFFolder) : List EmailMessage :=
  if methodSubMessages folder ≠ [] then methodSubMessages folder
  else if methodSubItems folder ≠ [] then methodSubItems folder
  else methodLegacyMessages folder

end PSTParser

/-- The mutable state of `MessageFilter` in `filters.py` (sizes are Python
ints, dates Python datetimes, pattern lists lower-cased strings). -/
structure MessageFilter where
  date_from : Option PyDateTime := none
  date_to : Option PyDateTime := none
  sender_filters : List String := []
  subject_filters : List String := []
  folder_filters : List String := []
  has_attachments : Option Bool := none
  attachment_types : List String := []
  size_min : Option Int := none
  size_max : Option Int := none
  exclude_folders : List String := []
deriving DecidableEq, Repr

namespace MessageFilter

/-- `MessageFilter.exclude_folder`: append the lower-cased pattern. -/
def exclude_folder (f : MessageFilter) (folder_pattern : String) : MessageFilter :=
  { f with exclude_folders := f.exclude_folders ++ [pyLower folder_pattern] }

/-- `MessageFilter.set_size_filter`: store the bounds. -/
def set_size_filter (f : MessageFilter) (size_min : Option Int := none)
    (size_max : Option Int := none) : MessageFilter :=
  { f with size_min := size_min, size_max := size_max }

/-- `MessageFilter._check_date_range`. -/
def check_date_range (f : MessageFilter) (message : EmailMessage) : Bool :=
  if f.date_from = none ∧ f.date_to = none then true
  else
    match message.sent_time.orElse (fun _ => message.received_time) with
    | none => true
    | some message_date =>
      if (match f.date_from with
          | some d => pyDateTimeLt message_date d
          | none => false) then false
      else if (match f.date_to with
          | some d => pyDateTimeLt d message_date
          | none => false) then false
      else true

/-- `MessageFilter._check_sender_filters`. -/
def check_sender_filters (f : MessageFilter) (message : EmailMessage) : Bool :=
  if f.sender_filters = [] then true
  else
    let sender_lower := if message.sender ≠ "" then pyLower message.sender else ""
    f.sender_filters.any (fun pattern => strContainsSub sender_lower pattern)

/-- `MessageFilter._check_subject_filters`. -/
def check_subject_filters (f : MessageFilter) (message : EmailMessage) : Bool :=
  if f.subject_filters = [] then true
  else
    let subject_lower := if message.subject ≠ "" then pyLower message.subject else ""
    f.subject_filters.any (fun pattern => strContainsSub subject_lower pattern)

/-- `MessageFilter._check_folder_filters`. -/
def check_folder_filters (f : MessageFilter) (message : EmailMessage) : Bool :=
  if f.folder_filters = [] then true
  else
    let folder_lower := if message.folder_path ≠ "" then pyLower message.folder_path else ""
    f.folder_filters.any (fun pattern => strContainsSub folder_lower pattern)

/-- `MessageFilter._check_folder_exclusions`. -/
def check_folder_exclusions (f : MessageFilter) (message : EmailMessage) : Bool :=
  if f.exclude_folders = [] then true
  else
    let folder_lower := if message.folder_path ≠ "" then pyLower message.folder_path else ""
    !(f.exclude_folders.any (fun pattern => strContainsSub folder_lower pattern))

/-- The lower-cased extension set collected by `_check_attachment_filters`
(`name.split('.')[-1].lower()` for names containing a dot). -/
def attachmentExtensions (attachments : List PSTAttachment) : List String :=
  attachments.filterMap (fun attachment =>
    let name := attachment.name
    if strContainsSub name "." then
      some (pyLower ⟨(splitOnChar '.' name.toList).getLastD []⟩)
    else none)

/-- `MessageFilter._check_attachment_filters`. -/
def check_attachment_filters (f : MessageFilter) (message : EmailMessage) : Bool :=
  if f.has_attachments = none ∧ f.attachment_types = [] then true
  else
    let msg_has_attachments : Bool := !message.attachments.isEmpty
    if (match f.has_attachments with
        | some required => required != msg_has_attachments
        | none => false) then false
    else if f.attachment_types ≠ [] ∧ msg_has_attachments then
      let message_extensions := attachmentExtensions message.attachments
      if !(f.attachment_types.any (fun ext => message_extensions.contains ext)) then false
      else true
    else true

/-- `MessageFilter.matches`: conjunction of the six checks, in source order
(named `matches_msg` because `matches` is reserved syntax in Lean). -/
def matches_msg (f : MessageFilter) (message : EmailMessage) : Bool :=
  if !(f.check_date_range message) then false
  else if !(f.check_sender_filters message) then false
  else if !(f.check_subject_filters message) then false
  else if !(f.check_folder_filters message) then false
  else if !(f.check_folder_exclusions message) then false
  else if !(f.check_attachment_filters message) then false
  else true

/-- `MessageFilter.filter_messages`. -/
def filter_messages (f : MessageFilter) (messages : List EmailMessage) : List EmailMessage :=
  messages.filter (fun msg => f.matches_msg msg)

/-- The dict returned by `MessageFilter.get_filter_summary`. -/
structure FilterSummary where
  date_range_from : Option String
  date_range_to : Option String
  sender_filters : List String
  subject_filters : List String
  folder_filters : List String
  exclude_folders : List String
  attachment_has : Option Bool
  attachment_types : List String
  size_range_min : Option Int
  size_range_max : Option Int
deriving DecidableEq, Repr

/-- `MessageFilter.get_filter_summary`. -/
def get_filter_summary (f : MessageFilter) : FilterSummary where
  date_range_from := f.date_from.map PyDateTime.isoformat
  date_range_to := f.date_to.map PyDateTime.isoformat
  sender_filters := f.sender_filters
  subject_filters := f.subject_filters
  folder_filters := f.folder_filters
  exclude_folders := f.exclude_folders
  attachment_has := f.has_attachments
  attachment_types := f.attachment_types
  size_range_min := f.size_min
  size_range_max := f.size_max

end MessageFilter

/-- Insertion of one string into an ascending list; `sortStrings` below is
Python `sorted` on strings (ascending lexicographic order on code points;
sorted permutations of strings are unique, so any sorting realisation
coincides with CPython's). -/
def insertSorted (x : String) : List String → List String
  | [] => [x]
  | y :: ys => if strLe x y then x :: y :: ys else y :: insertSorted x ys

/-- Python `sorted` on a list of strings. -/
def sortStrings (l : List String) : List String := l.foldr insertSorted []

/-- The configuration state of `DuplicateDetector` in `filters.py`
(defaults from `__init__`). -/
structure DuplicateDetector where
  check_subject : Bool := true
  check_sender : Bool := true
  check_recipients : Bool := true
  check_body : Bool := false
  check_date : Bool := false
  date_tolerance_minutes : Nat := 5
deriving DecidableEq, Repr

namespace DuplicateDetector

/-- `DuplicateDetector.get_message_signature`: build the list of enabled,
present components in source order and join with `|`. -/
def get_message_signature (d : DuplicateDetector) (message : EmailMessage) : String :=
  let subjPart : List String :=
    if d.check_subject ∧ message.subject ≠ "" then
      ["subj:" ++ pyStrip (pyLower message.subject)]
    else []
  let senderPart : List String :=
    if d.check_sender ∧ message.sender ≠ "" then
      ["from:" ++ pyStrip (pyLower message.sender)]
    else []
  let recipientsPart : List String :=
    if d.check_recipients ∧ message.recipients ≠ [] then
      let recipients := sortStrings (message.recipients.map (fun r => pyStrip (pyLower r)))
      ["to:" ++ String.intercalate "," recipients]
    else []
  let bodyPart : List String :=
    if d.check_body then
      let body := if message.body_text ≠ "" then message.body_text
                  else if message.body_html ≠ "" then message.body_html else ""
      let body_preview := pyStrip (pyLower (body.take 100))
      ["body:" ++ body_preview]
    else []
  let datePart : List String :=
    if d.check_date ∧ (message.sent_time ≠ none ∨ message.received_time ≠ none) then
      match message.sent_time.orElse (fun _ => message.received_time) with
      | none => []
      | some date_obj =>
        let minutes := date_obj.minute
        let rounded_minutes := (minutes / d.date_tolerance_minutes) * d.date_tolerance_minutes
        let date_rounded := { date_obj with minute := rounded_minutes, second := 0, microsecond := 0 }
        ["date:" ++ date_rounded.isoformat]
    else []
  String.intercalate "|" (subjPart ++ senderPart ++ recipientsPart ++ bodyPart ++ datePart)

end DuplicateDetector

section Grouping

variable {M : Type}

/-- One step of the grouping loop in `find_duplicates`:
`signature_groups[signature].append(message)`, creating the key at the end of
the (insertion-ordered) dict when absent. -/
def addToGroups (groups : List (String × List M)) (s : String) (m : M) :
    List (String × List M) :=
  match groups with
  | [] => [(s, [m])]
  | (k, v) :: rest =>
    if k = s then (k, v ++ [m]) :: rest else (k, v) :: addToGroups rest s m

/-- The `signature_groups` dict built by `DuplicateDetector.find_duplicates`,
as an insertion-ordered association list. -/
def signatureGroups (sig : M → String) (messages : List M) : List (String × List M) :=
  messages.foldl (fun groups m => addToGroups groups (sig m) m) []

/-- Association-list lookup (Python dict indexing `groups[s]`). -/
def lookupGroup (groups : List (String × List M)) (s : String) : Option (List M) :=
  match groups with
  | [] => none
  | (k, v) :: rest => if k = s then some v else lookupGroup rest s

/-- `DuplicateDetector.find_duplicates` generalized over the signature
function: keep only groups with more than one member. -/
def findDuplicatesBy (sig : M → String) (messages : List M) : List (String × List M) :=
  (signatureGroups sig messages).filter (fun g => 1 < g.2.length)

/-- Python `max(l, key=key)` (first maximal element), `none` on empty list. -/
def pyMaxBy (key : M → PyDateTime) : List M → Option M
  | [] => none
  | x :: xs => some (xs.foldl (fun acc y => if pyDateTimeLt (key acc) (key y) then y else acc) x)

/-- Python `min(l, key=key)` (first minimal element), `none` on empty list. -/
def pyMinBy (key : M → PyDateTime) : List M → Option M
  | [] => none
  | x :: xs => some (xs.foldl (fun acc y => if pyDateTimeLt (key y) (key acc) then y else acc) x)

end Grouping

/-- Whether a message carries a date (`msg.sent_time or msg.received_time`
is truthy). -/
def hasDate (m : EmailMessage) : Bool :=
  m.sent_time.isSome || m.received_time.isSome

/-- `msg.sent_time or msg.received_time` for a message known to carry a
date (an arbitrary epoch stands in for the unreachable dateless case). -/
def effectiveDate (m : EmailMessage) : PyDateTime :=
  (m.sent_time.orElse (fun _ => m.received_time)).getD ⟨1970, 1, 1, 0, 0, 0, 0⟩

/-- `DuplicateDetector._select_message_to_keep`: pick the survivor of a
duplicate group according to the strategy; `none` only on an empty group
(where CPython would raise an IndexError). -/
def select_message_to_keep (duplicate_group : List EmailMessage)
    (keep_strategy : String) : Option EmailMessage :=
  if keep_strategy = "first" then duplicate_group.head?
  else if keep_strategy = "last" then duplicate_group.getLast?
  else if keep_strategy = "newest" then
    let with_dates := duplicate_group.filter (fun msg => hasDate msg)
    if with_dates ≠ [] then pyMaxBy effectiveDate with_dates
    else duplicate_group.head?
  else if keep_strategy = "oldest" then
    let with_dates := duplicate_group.filter (fun msg => hasDate msg)
    if with_dates ≠ [] then pyMinBy effectiveDate with_dates
    else duplicate_group.head?
  else duplicate_group.head?

/-- The main loop of `remove_duplicates`: walk the messages carrying the set
of already-processed duplicate signatures, keeping the selected survivor at a
duplicate group's first occurrence and every unique message. -/
def removeDupLoop (sig : EmailMessage → String)
    (duplicate_groups : List (String × List EmailMessage)) (keep_strategy : String) :
    List EmailMessage → List String → List EmailMessage
  | [], _ => []
  | message :: rest, processed_signatures =>
    let signature := sig message
    if (duplicate_groups.map Prod.fst).contains signature then
      if processed_signatures.contains signature then
        removeDupLoop sig duplicate_groups keep_strategy rest processed_signatures
      else
        match select_message_to_keep ((lookupGroup duplicate_groups signature).getD []) keep_strategy with
        | some kept_message =>
          kept_message :: removeDupLoop sig duplicate_groups keep_strategy rest
            (signature :: processed_signatures)
        | none =>
          removeDupLoop sig duplicate_groups keep_strategy rest
            (signature :: processed_signatures)
    else
      message :: removeDupLoop sig duplicate_groups keep_strategy rest processed_signatures

namespace DuplicateDetector

/-- `DuplicateDetector.find_duplicates`. -/
def find_duplicates (d : DuplicateDetector) (messages : List EmailMessage) :
    List (String × List EmailMessage) :=
  findDuplicatesBy (d.get_message_signature) messages

/-- `DuplicateDetector.remove_duplicates` (default `keep_strategy='first'`). -/
def remove_duplicates (d : DuplicateDetector) (messages : List EmailMessage)
    (keep_strategy : String := "first") : List EmailMessage :=
  let duplicate_groups := d.find_duplicates messages
  if duplicate_groups = [] then messages
  else removeDupLoop (d.get_message_signature) duplicate_groups keep_strategy messages []

end DuplicateDetector

/-- The signature as described by the claim: the concatenation, in the fixed
field order subject, sender, recipients, body, date, of exactly the
components enabled by the configuration, each independently normalized (the
timestamp bucket presumes a timestamp is present). -/
def claimedSignatureOfSpec (d : DuplicateDetector) (message : EmailMessage) : String :=
  let subjPart : List String :=
    if d.check_subject then ["subj:" ++ pyStrip (pyLower message.subject)] else []
  let senderPart : List String :=
    if d.check_sender then ["from:" ++ pyStrip (pyLower message.sender)] else []
  let recipientsPart : List String :=
    if d.check_recipients then
      ["to:" ++ String.intercalate ","
        (sortStrings (message.recipients.map (fun r => pyStrip (pyLower r))))]
    else []
  let bodyPart : List String :=
    if d.check_body then
      let body := if message.body_text ≠ "" then message.body_text
                  else if message.body_html ≠ "" then message.body_html else ""
      ["body:" ++ pyStrip (pyLower (body.take 100))]
    else []
  let datePart : List String :=
    if d.check_date ∧ (message.sent_time ≠ none ∨ message.received_time ≠ none) then
      match message.sent_time.orElse (fun _ => message.received_time) with
      | none => []
      | some date_obj =>
        let rounded_minutes :=
          (date_obj.minute / d.date_tolerance_minutes) * d.date_tolerance_minutes
        let date_rounded : PyDateTime :=
          { date_obj with minute := rounded_minutes, second := 0, microsecond := 0 }
        ["date:" ++ date_rounded.isoformat]
    else []
  String.intercalate "|" (subjPart ++ senderPart ++ recipientsPart ++ bodyPart ++ datePart)

/-- The signature as amended: one optional component per field in the fixed
field order, a component contributing exactly when it is enabled and its
underlying datum is present (body contributes whenever enabled, with the
empty string standing in for an absent body; date contributes when enabled
and a timestamp exists), each independently normalized. -/
def amendedSignatureOfSpec (d : DuplicateDetector) (message : EmailMessage) : String :=
  let components : List (Option String) :=
    [ if d.check_subject ∧ message.subject ≠ "" then
        some ("subj:" ++ pyStrip (pyLower message.subject))
      else none,
      if d.check_sender ∧ message.sender ≠ "" then
        some ("from:" ++ pyStrip (pyLower message.sender))
      else none,
      if d.check_recipients ∧ message.recipients ≠ [] then
        some ("to:" ++ String.intercalate ","
          (sortStrings (message.recipients.map (fun r => pyStrip (pyLower r)))))
      else none,
      if d.check_body then
        some ("body:" ++ pyStrip (pyLower
          ((if message.body_text ≠ "" then message.body_text
            else if message.body_html ≠ "" then message.body_html else "").take 100)))
      else none,
      if d.check_date ∧ (message.sent_time ≠ none ∨ message.received_time ≠ none) then
        match message.sent_time.orElse (fun _ => message.received_time) with
        | none => none
        | some date_obj =>
          some ("date:" ++ ({ date_obj with
            minute := (date_obj.minute / d.date_tolerance_minutes) * d.date_tolerance_minutes,
            second := 0, microsecond := 0 } : PyDateTime).isoformat)
      else none ]
  String.intercalate "|" (components.filterMap id)

/-- First occurrences of the strings of `l` not in `seen`, in order: the
signature sequence that survives a guarded first-occurrence sweep. -/
def firstOccurrences : List String → List String → List String
  | [], _ => []
  | x :: l, seen =>
    if x ∈ seen then firstOccurrences l seen else x :: firstOccurrences l (x :: seen)

namespace BatchProcessor

/-- What `_process_single_file` observes of one PST file in the batch: the
outcome of `list(parser.extract_messages())`, i.e. either the extracted
message list or any exception raised while opening/reading the file (such as
the `ValueError` for an invalid signature from `PSTParser._validate_file`). -/
abbrev FileOutcome := Except String (List EmailMessage)

/-- The statistics fields of `BatchProcessor.stats` that the extraction phase
touches. -/
structure BatchStats where
  files_processed : Nat := 0
  files_failed : Nat := 0
  total_messages : Nat := 0
deriving DecidableEq, Repr

/-- A progress callback as invoked by `process_files`: receives the current
step and the total step count (the derived float percentage and status string
are determined by these), and may raise. -/
def ProgressCallback := Nat → Nat → Except String Unit

/-- `BatchProcessor._process_single_file`: a success increments
`files_processed` and returns the messages; any exception is caught, counted
in `files_failed`, and `None` is returned. -/
def process_single_file (stats : BatchStats) (pst_file : FileOutcome) :
    BatchStats × Option (List EmailMessage) :=
  match pst_file with
  | Except.ok msgs => ({ stats with files_processed := stats.files_processed + 1 }, some msgs)
  | Except.error _ => ({ stats with files_failed := stats.files_failed + 1 }, none)

/-- The sequential (`max_workers == 1`) per-file loop of
`BatchProcessor.process_files`: advance the step counter, invoke the progress
callback when supplied (unguarded — a raise propagates), process the file,
and extend `all_messages` with any returned messages. -/
def processFilesLoop (callback : Option ProgressCallback) (total_steps : Nat) :
    List FileOutcome → Nat → BatchStats → List EmailMessage →
    Except String (Nat × BatchStats × List EmailMessage)
  | [], current_step, stats, all_messages =>
    Except.ok (current_step, stats, all_messages)
  | pst_file :: rest, current_step, stats, all_messages =>
    let current_step := current_step + 1
    match (match callback with
           | some cb => cb current_step total_steps
           | none => Except.ok ()) with
    | Except.error e => Except.error e
    | Except.ok _ =>
      let (stats', messages?) := process_single_file stats pst_file
      let all_messages := all_messages ++ messages?.getD []
      processFilesLoop callback total_steps rest current_step stats' all_messages

/-- The extraction phase of `BatchProcessor.process_files` with
`max_workers == 1`: reset statistics, run the sequential per-file loop, then
record `total_messages = len(all_messages)`.  (Filtering and conversion act
on the returned message list afterwards and do not touch these three
fields.) -/
def process_files_extraction (pst_files : List FileOutcome)
    (callback : Option ProgressCallback) : Except String (List EmailMessage × BatchStats) :=
  let total_steps := pst_files.length + 1
  match processFilesLoop callback total_steps pst_files 0 {} [] with
  | Except.error e => Except.error e
  | Except.ok (_, stats, all_messages) =>
    Except.ok (all_messages, { stats with total_messages := all_messages.length })

/-- `ProgressTracker` state (the progress float is abstracted by the pair of
step counters that determine it). -/
structure ProgressTracker where
  current_progress : Nat := 0
  current_status : String := "Ready"
  current_step : Nat := 0
  total_steps : Nat := 0
  callbacks : List (Nat → String → Nat → Nat → Except String Unit) := []

/-- The notification loop of `ProgressTracker.update_progress`: each callback
is invoked inside `try/except` — its result, raise or not, is logged and
discarded, and the loop continues. -/
def notifyCallbacks (progress : Nat) (status : String) (current_step total_steps : Nat) :
    List (Nat → String → Nat → Nat → Except String Unit) → Except String Unit
  | [] => Except.ok ()
  | callback :: rest =>
    match callback progress status current_step total_steps with
    | Except.ok _ => notifyCallbacks progress status current_step total_steps rest
    | Except.error _ => notifyCallbacks progress status current_step total_steps rest

/-- `ProgressTracker.update_progress`: store the new progress state and
notify all callbacks. -/
def ProgressTracker.update_progress (t : ProgressTracker) (progress : Nat)
    (status : String) (current_step total_steps : Nat) : Except String ProgressTracker :=
  match notifyCallbacks progress status current_step total_steps t.callbacks with
  | Except.error e => Except.error e
  | Except.ok _ =>
    Except.ok { t with current_progress := progress, current_status := status,
                       current_step := current_step, total_steps := total_steps }

end BatchProcessor

/-! ## Theorems -/

theorem pyLower_empty : pyLower "" = "" := by decide

/-- The folder-path lower-casing in the filter checks is plain lower-casing:
the empty-string guard is redundant. -/
theorem folder_lower_eq (s : String) :
    (if s ≠ "" then pyLower s else "") = pyLower s := by
  split
  · rfl
  · next h =>
    simp only [ne_eq, not_not] at h
    rw [h, pyLower_empty]

/-- `matches` is the conjunction of the six predicate checks. -/
theorem MessageFilter.matches_msg_eq_and (f : MessageFilter) (m : EmailMessage) :
    f.matches_msg m = (f.check_date_range m && f.check_sender_filters m &&
      f.check_subject_filters m && f.check_folder_filters m &&
      f.check_folder_exclusions m && f.check_attachment_filters m) := by
  unfold MessageFilter.matches_msg
  cases f.check_date_range m <;> cases f.check_sender_filters m <;>
    cases f.check_subject_filters m <;> cases f.check_folder_filters m <;>
      cases f.check_folder_exclusions m <;> cases f.check_attachment_filters m <;> rfl

/-- A matching exclusion pattern forces the exclusion check to `false`. -/
theorem MessageFilter.check_folder_exclusions_false (f : MessageFilter)
    (m : EmailMessage) (p : String) (hmem : p ∈ f.exclude_folders)
    (hsub : strContainsSub (pyLower m.folder_path) p = true) :
    f.check_folder_exclusions m = false := by
  unfold MessageFilter.check_folder_exclusions
  rw [if_neg (List.ne_nil_of_mem hmem), folder_lower_eq]
  simp only [Bool.not_eq_false', List.any_eq_true]
  exact ⟨p, hmem, hsub⟩

/-- Core of C5: a matching exclusion pattern forces `matches` to `false`. -/
theorem MessageFilter.matches_false_of_exclusion (f : MessageFilter)
    (m : EmailMessage) (p : String) (hmem : p ∈ f.exclude_folders)
    (hsub : strContainsSub (pyLower m.folder_path) p = true) :
    f.matches_msg m = false := by
  rw [MessageFilter.matches_msg_eq_and,
    MessageFilter.check_folder_exclusions_false f m p hmem hsub]
  simp

/-- C5: for every record and every filter configuration, if the record's
folder path case-insensitively contains a pattern of the exclusion set
(patterns enter the set lower-cased via `exclude_folder`), `matches` returns
`False`, regardless of how the other predicates evaluate on the record. -/
theorem folder_exclusion_overrides (f : MessageFilter) (m : EmailMessage) (p : String) :
    (p ∈ f.exclude_folders → strContainsSub (pyLower m.folder_path) p = true →
      f.matches_msg m = false)
    ∧ (strContainsSub (pyLower m.folder_path) (pyLower p) = true →
      (f.exclude_folder p).matches_msg m = false) :=
  ⟨fun hmem hsub => MessageFilter.matches_false_of_exclusion f m p hmem hsub,
   fun hsub => MessageFilter.matches_false_of_exclusion (f.exclude_folder p) m (pyLower p)
     (by simp [MessageFilter.exclude_folder]) hsub⟩

/-- Witness for C5 at a concrete filter, record and pattern. -/
theorem folder_exclusion_overrides_witness :
    ({ exclude_folders := ["spam"] } : MessageFilter).matches_msg
      { subject := "hello", sender := "x", recipients := [], folder_path := "/SPAM/Sub" } = false
    ∧ (({} : MessageFilter).exclude_folder "Spam").matches_msg
      { subject := "hello", sender := "x", recipients := [], folder_path := "/SPAM/Sub" } = false :=
  ⟨(folder_exclusion_overrides { exclude_folders := ["spam"] }
      { subject := "hello", sender := "x", recipients := [], folder_path := "/SPAM/Sub" }
      "spam").1 (by decide) (by decide),
   (folder_exclusion_overrides {}
      { subject := "hello", sender := "x", recipients := [], folder_path := "/SPAM/Sub" }
      "Spam").2 (by decide)⟩

/-- C6: with a date range configured, a record carrying neither a sent-time
nor a received-time is never rejected by the date-range predicate. -/
theorem no_timestamp_passes_date_filter (f : MessageFilter) (m : EmailMessage)
    (_hrange : f.date_from ≠ none ∨ f.date_to ≠ none)
    (hs : m.sent_time = none) (hr : m.received_time = none) :
    f.check_date_range m = true := by
  unfold MessageFilter.check_date_range
  split
  · rfl
  · simp [hs, hr, Option.orElse]

/-- Witness for C6 at a concrete date-range filter and dateless record. -/
theorem no_timestamp_passes_date_filter_witness :
    (({ date_from := some ⟨2020, 1, 1, 0, 0, 0, 0⟩ } : MessageFilter).date_from ≠ none ∨
      ({ date_from := some ⟨2020, 1, 1, 0, 0, 0, 0⟩ } : MessageFilter).date_to ≠ none)
    ∧ ({ date_from := some ⟨2020, 1, 1, 0, 0, 0, 0⟩ } : MessageFilter).check_date_range
        { subject := "s", sender := "x", recipients := [] } = true :=
  ⟨Or.inl (by decide),
   no_timestamp_passes_date_filter { date_from := some ⟨2020, 1, 1, 0, 0, 0, 0⟩ }
     { subject := "s", sender := "x", recipients := [] }
     (Or.inl (by decide)) rfl rfl⟩

/-- C10: the size bounds stored by `set_size_filter` are reported in the
filter summary but never influence `matches`. -/
theorem size_filter_noninterference (f : MessageFilter) (m : EmailMessage)
    (a b : Option Int) :
    (f.set_size_filter a b).matches_msg m = f.matches_msg m
    ∧ (f.set_size_filter a b).size_min = a ∧ (f.set_size_filter a b).size_max = b
    ∧ ((f.set_size_filter a b).get_filter_summary).size_range_min = a
    ∧ ((f.set_size_filter a b).get_filter_summary).size_range_max = b :=
  ⟨rfl, rfl, rfl, rfl, rfl⟩

/-- C4: opening a file whose first 4 bytes are not `b'!BDN'` raises the
invalid-signature error; with the correct signature, the little-endian
16-bit type code at offset 10 decides the mode: `0x17` yields Unicode,
`0x0E` yields ANSI, anything else raises the unsupported-type error. -/
theorem open_pst_header_classification (data : List Nat) (b10 b11 : Nat)
    (hslice : ((data.take 512).drop 10).take 2 = [b10, b11]) :
    (data.take 4 ≠ PSTParser.PST_SIGNATURE →
      PSTParser.open_pst data = Except.error "Invalid PST file signature")
    ∧ (data.take 4 = PSTParser.PST_SIGNATURE →
        (b10 + 256 * b11 = 0x17 →
          ∃ h, PSTParser.open_pst data = Except.ok h ∧ h.is_unicode = true)
        ∧ (b10 + 256 * b11 = 0x0E →
          ∃ h, PSTParser.open_pst data = Except.ok h ∧ h.is_unicode = false)
        ∧ (b10 + 256 * b11 ≠ 0x17 → b10 + 256 * b11 ≠ 0x0E →
          PSTParser.open_pst data =
            Except.error ("Unsupported PST file type: " ++ toString (b10 + 256 * b11)))) := by
  have htake : (data.take 512).take 4 = data.take 4 := by
    rw [List.take_take]; norm_num
  constructor
  · intro hsig
    unfold PSTParser.open_pst PSTParser.validate_file
    rw [if_neg hsig]
  · intro hsig
    have hopen : PSTParser.open_pst data = PSTParser.read_header data := by
      unfold PSTParser.open_pst PSTParser.validate_file
      rw [if_pos hsig]
    have hread : PSTParser.read_header data =
        (if b10 + 256 * b11 = 0x17 then
          Except.ok ⟨PSTParser.PST_SIGNATURE, b10 + 256 * b11, true, data.length⟩
        else if b10 + 256 * b11 = 0x0E then
          Except.ok ⟨PSTParser.PST_SIGNATURE, b10 + 256 * b11, false, data.length⟩
        else
          Except.error ("Unsupported PST file type: " ++ toString (b10 + 256 * b11))) := by
      unfold PSTParser.read_header
      simp only [htake, hsig, hslice, ne_eq, not_true_eq_false, if_false,
        PSTParser.unpack_u16le, PSTParser.UNICODE_PST, PSTParser.ANSI_PST]
    rw [hopen, hread]
    refine ⟨fun h17 => ?_, fun h0E => ?_, fun h17 h0E => ?_⟩
    · rw [if_pos h17]; exact ⟨_, rfl, rfl⟩
    · rw [if_neg (by omega), if_pos h0E]; exact ⟨_, rfl, rfl⟩
    · rw [if_neg h17, if_neg h0E]

/-- Witness for C4 on a concrete 12-byte Unicode header. -/
theorem open_pst_header_classification_witness :
    ((([0x21, 0x42, 0x44, 0x4E, 0, 0, 0, 0, 0, 0, 0x17, 0] : List Nat).take 512).drop 10).take 2
        = [0x17, 0]
    ∧ (([0x21, 0x42, 0x44, 0x4E, 0, 0, 0, 0, 0, 0, 0x17, 0] : List Nat).take 4 =
          PSTParser.PST_SIGNATURE →
        ((0x17 : Nat) + 256 * 0 = 0x17 →
          ∃ h, PSTParser.open_pst [0x21, 0x42, 0x44, 0x4E, 0, 0, 0, 0, 0, 0, 0x17, 0] =
            Except.ok h ∧ h.is_unicode = true)
        ∧ ((0x17 : Nat) + 256 * 0 = 0x0E →
          ∃ h, PSTParser.open_pst [0x21, 0x42, 0x44, 0x4E, 0, 0, 0, 0, 0, 0, 0x17, 0] =
            Except.ok h ∧ h.is_unicode = false)
        ∧ ((0x17 : Nat) + 256 * 0 ≠ 0x17 → (0x17 : Nat) + 256 * 0 ≠ 0x0E →
          PSTParser.open_pst [0x21, 0x42, 0x44, 0x4E, 0, 0, 0, 0, 0, 0, 0x17, 0] =
            Except.error ("Unsupported PST file type: " ++ toString ((0x17 : Nat) + 256 * 0)))) :=
  ⟨by decide,
   (open_pst_header_classification [0x21, 0x42, 0x44, 0x4E, 0, 0, 0, 0, 0, 0, 0x17, 0]
     0x17 0 (by decide)).2⟩

/-- Closed form of the sequential per-file loop with no progress callback. -/
theorem BatchProcessor.processFilesLoop_none_eq (total : Nat)
    (files : List BatchProcessor.FileOutcome) :
    ∀ (step : Nat) (st : BatchProcessor.BatchStats) (acc : List EmailMessage),
    BatchProcessor.processFilesLoop none total files step st acc =
      Except.ok (step + files.length,
        { files_processed := st.files_processed + files.countP (fun o => o.toOption.isSome),
          files_failed := st.files_failed + files.countP (fun o => o.toOption.isNone),
          total_messages := st.total_messages },
        acc ++ (files.filterMap (fun o => o.toOption)).flatten) := by
  induction files with
  | nil =>
    intro step st acc
    simp [BatchProcessor.processFilesLoop]
  | cons f rest ih =>
    intro step st acc
    cases f with
    | ok msgs =>
      simp only [BatchProcessor.processFilesLoop, BatchProcessor.process_single_file, ih,
        List.countP_cons, List.filterMap_cons, Except.toOption, List.length_cons]
      refine congrArg Except.ok ?_
      refine Prod.ext ?_ (Prod.ext ?_ ?_) <;> simp <;> omega
    | error e =>
      simp only [BatchProcessor.processFilesLoop, BatchProcessor.process_single_file, ih,
        List.countP_cons, List.filterMap_cons, Except.toOption, List.length_cons]
      refine congrArg Except.ok ?_
      refine Prod.ext ?_ (Prod.ext ?_ ?_) <;> simp <;> omega

/-- C8: with no progress callback, batch extraction over any file list
succeeds; a file whose extraction raises is counted once in `files_failed`
without aborting the rest, `files_processed` counts the successful files,
and `total_messages` counts the concatenation of all messages extracted from
the successful files (which is exactly the returned message list). -/
theorem process_files_extraction_stats (files : List BatchProcessor.FileOutcome) :
    BatchProcessor.process_files_extraction files none =
      Except.ok ((files.filterMap (fun o => o.toOption)).flatten,
        { files_processed := files.countP (fun o => o.toOption.isSome),
          files_failed := files.countP (fun o => o.toOption.isNone),
          total_messages := (files.filterMap (fun o => o.toOption)).flatten.length }) := by
  unfold BatchProcessor.process_files_extraction
  simp only [BatchProcessor.processFilesLoop_none_eq]
  simp

/-- C9 counterexample: a raising progress callback handed directly to
`process_files` propagates out of the sequential batch loop (the call sites
in `process_files` are not guarded), even on a batch of one healthy file. -/
theorem process_files_callback_raise_propagates :
    BatchProcessor.process_files_extraction [Except.ok []]
      (some (fun _ _ => Except.error "callback boom")) =
      Except.error "callback boom" := by
  rfl

/-- The guarded notification loop of `ProgressTracker.update_progress` never
propagates a callback's exception. -/
theorem BatchProcessor.notifyCallbacks_ok (progress : Nat) (status : String)
    (current_step total_steps : Nat)
    (callbacks : List (Nat → String → Nat → Nat → Except String Unit)) :
    BatchProcessor.notifyCallbacks progress status current_step total_steps callbacks =
      Except.ok () := by
  induction callbacks with
  | nil => rfl
  | cons c rest ih =>
    unfold BatchProcessor.notifyCallbacks
    cases c progress status current_step total_steps <;> exact ih

/-- C9 (amended): every callback registered on a `ProgressTracker` is invoked
inside a try/except by `update_progress`, so `update_progress` always
succeeds and stores the new progress state — callback exceptions are logged
and ignored there; only callbacks passed directly to `process_files` can
propagate. -/
theorem update_progress_never_propagates (t : BatchProcessor.ProgressTracker)
    (progress : Nat) (status : String) (current_step total_steps : Nat) :
    t.update_progress progress status current_step total_steps =
      Except.ok { t with current_progress := progress, current_status := status,
                         current_step := current_step, total_steps := total_steps } := by
  unfold BatchProcessor.ProgressTracker.update_progress
  rw [BatchProcessor.notifyCallbacks_ok]


/-- The counter of a strategy loop from an arbitrary state: initial counter
plus the count of the run from the empty state. -/
theorem PSTParser.yieldItems_fst (oe : Bool) (items : List (Option PSTParser.PFFItem)) :
    ∀ st : Nat × List EmailMessage,
    (PSTParser.yieldItems oe items st).1 =
      st.1 + (PSTParser.yieldItems oe items (0, [])).1 := by
  induction items with
  | nil => intro st; simp [PSTParser.yieldItems]
  | cons item? rest ih =>
    rintro ⟨n, out⟩
    cases item? with
    | none =>
      simp only [PSTParser.yieldItems]
      rw [ih (n, out)]
    | some item =>
      simp only [PSTParser.yieldItems]
      by_cases hskip : (oe = true ∧ ¬item.is_email_attrs = true)
      · rw [if_pos hskip, if_pos hskip, ih (n, out)]
      · rw [if_neg hskip, if_neg hskip]
        cases hconv : item.converted with
        | none =>
          rw [ih (n, out)]
        | some email_msg =>
          rw [ih (n + 1, out ++ [email_msg]), ih (0 + 1, [] ++ [email_msg])]
          omega

/-- The output of a strategy loop from an arbitrary state: initial output
followed by the run from the empty state. -/
theorem PSTParser.yieldItems_snd (oe : Bool) (items : List (Option PSTParser.PFFItem)) :
    ∀ st : Nat × List EmailMessage,
    (PSTParser.yieldItems oe items st).2 =
      st.2 ++ (PSTParser.yieldItems oe items (0, [])).2 := by
  induction items with
  | nil => intro st; simp [PSTParser.yieldItems]
  | cons item? rest ih =>
    rintro ⟨n, out⟩
    cases item? with
    | none =>
      simp only [PSTParser.yieldItems]
      rw [ih (n, out)]
    | some item =>
      simp only [PSTParser.yieldItems]
      by_cases hskip : (oe = true ∧ ¬item.is_email_attrs = true)
      · rw [if_pos hskip, if_pos hskip, ih (n, out)]
      · rw [if_neg hskip, if_neg hskip]
        cases hconv : item.converted with
        | none =>
          rw [ih (n, out)]
        | some email_msg =>
          rw [ih (n + 1, out ++ [email_msg]), ih (0 + 1, [] ++ [email_msg])]
          simp

/-- The counter of a strategy loop run from the empty state equals the number
of messages it yields. -/
theorem PSTParser.yieldItems_count (oe : Bool) (items : List (Option PSTParser.PFFItem)) :
    (PSTParser.yieldItems oe items (0, [])).1 =
      (PSTParser.yieldItems oe items (0, [])).2.length := by
  induction items with
  | nil => rfl
  | cons item? rest ih =>
    cases item? with
    | none =>
      simp only [PSTParser.yieldItems]
      exact ih
    | some item =>
      simp only [PSTParser.yieldItems]
      by_cases hskip : (oe = true ∧ ¬item.is_email_attrs = true)
      · rw [if_pos hskip]; exact ih
      · rw [if_neg hskip]
        cases hconv : item.converted with
        | none => exact ih
        | some email_msg =>
          rw [PSTParser.yieldItems_fst oe rest (0 + 1, [] ++ [email_msg]),
            PSTParser.yieldItems_snd oe rest (0 + 1, [] ++ [email_msg])]
          simp [ih]
          omega

/-- Each strategy's yield is empty exactly when its counter is zero. -/
theorem PSTParser.yieldItems_fst_zero (oe : Bool)
    (items : List (Option PSTParser.PFFItem)) :
    (PSTParser.yieldItems oe items (0, [])).1 = 0 ↔
      (PSTParser.yieldItems oe items (0, [])).2 = [] := by
  rw [PSTParser.yieldItems_count, List.length_eq_zero]

/-- C1 (amended): per-folder message discovery always runs strategy 1
(`sub_messages`) and then strategy 2 (`sub_items` filtered to email-shaped
items) — strategy 2 is not skipped when strategy 1 yields — and runs the
legacy strategy 3 exactly when strategies 1 and 2 together yielded zero
messages; the folder's record sequence is the concatenation of the
strategies that ran. -/
theorem extract_messages_from_folder_decomposition (folder : PSTParser.PFFFolder) :
    PSTParser.extract_messages_from_folder folder =
      PSTParser.methodSubMessages folder ++ PSTParser.methodSubItems folder ++
        (if PSTParser.methodSubMessages folder ++ PSTParser.methodSubItems folder = []
         then PSTParser.methodLegacyMessages folder else []) := by
  simp only [PSTParser.extract_messages_from_folder, PSTParser.methodSubMessages,
    PSTParser.methodSubItems, PSTParser.methodLegacyMessages]
  cases hsm : folder.sub_messages with
  | none =>
    cases hsi : folder.sub_items with
    | none =>
      cases hm : folder.messages with
      | none => simp
      | some items3 => simp
    | some items2 =>
      cases hm : folder.messages with
      | none =>
        by_cases hz : (PSTParser.yieldItems true items2 (0, [])).1 = 0
        · rw [if_pos hz, if_pos (by simpa using (PSTParser.yieldItems_fst_zero true items2).mp hz)]
          simp [(PSTParser.yieldItems_fst_zero true items2).mp hz]
        · rw [if_neg hz,
            if_neg (by simpa using fun h => hz ((PSTParser.yieldItems_fst_zero true items2).mpr h))]
          simp
      | some items3 =>
        by_cases hz : (PSTParser.yieldItems true items2 (0, [])).1 = 0
        · have h2 : (PSTParser.yieldItems true items2 (0, [])).2 = [] :=
            (PSTParser.yieldItems_fst_zero true items2).mp hz
          rw [if_pos hz, if_pos (by simpa using h2),
            PSTParser.yieldItems_snd false items3 (PSTParser.yieldItems true items2 (0, []))]
          simp [h2]
        · rw [if_neg hz,
            if_neg (by simpa using fun h => hz ((PSTParser.yieldItems_fst_zero true items2).mpr h))]
          simp
  | some items1 =>
    cases hsi : folder.sub_items with
    | none =>
      cases hm : folder.messages with
      | none =>
        by_cases hz : (PSTParser.yieldItems false items1 (0, [])).1 = 0
        · rw [if_pos hz, if_pos (by simpa using (PSTParser.yieldItems_fst_zero false items1).mp hz)]
          simp [(PSTParser.yieldItems_fst_zero false items1).mp hz]
        · rw [if_neg hz,
            if_neg (by simpa using fun h => hz ((PSTParser.yieldItems_fst_zero false items1).mpr h))]
          simp
      | some items3 =>
        by_cases hz : (PSTParser.yieldItems false items1 (0, [])).1 = 0
        · have h1 : (PSTParser.yieldItems false items1 (0, [])).2 = [] :=
            (PSTParser.yieldItems_fst_zero false items1).mp hz
          rw [if_pos hz, if_pos (by simpa using h1),
            PSTParser.yieldItems_snd false items3 (PSTParser.yieldItems false items1 (0, []))]
          simp [h1]
        · rw [if_neg hz,
            if_neg (by simpa using fun h => hz ((PSTParser.yieldItems_fst_zero false items1).mpr h))]
          simp
    | some items2 =>
      have hfst := PSTParser.yieldItems_fst true items2 (PSTParser.yieldItems false items1 (0, []))
      have hsnd := PSTParser.yieldItems_snd true items2 (PSTParser.yieldItems false items1 (0, []))
      have hc1 := PSTParser.yieldItems_fst_zero false items1
      have hc2 := PSTParser.yieldItems_fst_zero true items2
      cases hm : folder.messages with
      | none =>
        by_cases hz : (PSTParser.yieldItems true items2
            (PSTParser.yieldItems false items1 (0, []))).1 = 0
        · have hz1 : (PSTParser.yieldItems false items1 (0, [])).1 = 0 := by
            rw [hfst] at hz; omega
          have hz2 : (PSTParser.yieldItems true items2 (0, [])).1 = 0 := by
            rw [hfst] at hz; omega
          rw [if_pos hz, hsnd,
            if_pos (List.append_eq_nil.mpr ⟨hc1.mp hz1, hc2.mp hz2⟩)]
          simp [hc1.mp hz1, hc2.mp hz2]
        · rw [if_neg hz, hsnd]
          have hne : ¬((PSTParser.yieldItems false items1 (0, [])).2 ++
              (PSTParser.yieldItems true items2 (0, [])).2 = []) := by
            intro h
            rw [List.append_eq_nil] at h
            exact hz (by rw [hfst, hc1.mpr h.1, hc2.mpr h.2])
          rw [if_neg hne]
          simp
      | some items3 =>
        by_cases hz : (PSTParser.yieldItems true items2
            (PSTParser.yieldItems false items1 (0, []))).1 = 0
        · have hz1 : (PSTParser.yieldItems false items1 (0, [])).1 = 0 := by
            rw [hfst] at hz; omega
          have hz2 : (PSTParser.yieldItems true items2 (0, [])).1 = 0 := by
            rw [hfst] at hz; omega
          rw [if_pos hz,
            PSTParser.yieldItems_snd false items3
              (PSTParser.yieldItems true items2 (PSTParser.yieldItems false items1 (0, []))),
            hsnd, if_pos (List.append_eq_nil.mpr ⟨hc1.mp hz1, hc2.mp hz2⟩)]
        · rw [if_neg hz, hsnd]
          have hne : ¬((PSTParser.yieldItems false items1 (0, [])).2 ++
              (PSTParser.yieldItems true items2 (0, [])).2 = []) := by
            intro h
            rw [List.append_eq_nil] at h
            exact hz (by rw [hfst, hc1.mpr h.1, hc2.mpr h.2])
          rw [if_neg hne]
          simp

/-- C1 counterexample: a folder offering one sub-message and one email-shaped
sub-item yields records from both strategy 1 and strategy 2 — strategy 2 is
not skipped even though strategy 1 yielded a message, so the first yielding
strategy does not "win". -/
theorem extract_strategies_not_exclusive :
    PSTParser.extract_messages_from_folder
      { sub_messages := some [some ⟨true, some { subject := "a", sender := "", recipients := [] }⟩],
        sub_items := some [some ⟨true, some { subject := "b", sender := "", recipients := [] }⟩],
        messages := none }
    ≠ PSTParser.claimedExtractFromFolder
      { sub_messages := some [some ⟨true, some { subject := "a", sender := "", recipients := [] }⟩],
        sub_items := some [some ⟨true, some { subject := "b", sender := "", recipients := [] }⟩],
        messages := none } := by
  decide

/-- C2 counterexample: with only the subject component enabled, a record with
an empty subject gets the empty signature — the enabled subject component is
skipped, not emitted in normalized form as the claim's construction
prescribes. -/
theorem signature_skips_enabled_empty_components :
    DuplicateDetector.get_message_signature
      { check_subject := true, check_sender := false, check_recipients := false,
        check_body := false, check_date := false, date_tolerance_minutes := 5 }
      { subject := "", sender := "x@y", recipients := ["a"] }
    ≠ claimedSignatureOfSpec
      { check_subject := true, check_sender := false, check_recipients := false,
        check_body := false, check_date := false, date_tolerance_minutes := 5 }
      { subject := "", sender := "x@y", recipients := ["a"] } := by
  decide

/-- C2 (amended): for every configuration with a positive date tolerance, the
signature is the `|`-joined concatenation, in the fixed field order subject,
sender, recipients, body, date, of exactly the components that are enabled
and whose datum is present (body whenever enabled; date when enabled and a
timestamp exists), each independently normalized: case-folded and trimmed,
recipients sorted and comma-joined, body truncated to its first 100
characters before folding, and the timestamp bucketed by flooring the minute
field to a multiple of the tolerance before ISO formatting. -/
theorem get_message_signature_amended (d : DuplicateDetector) (m : EmailMessage)
    (_htol : 0 < d.date_tolerance_minutes) :
    d.get_message_signature m = amendedSignatureOfSpec d m := by
  unfold DuplicateDetector.get_message_signature amendedSignatureOfSpec
  by_cases h1 : (d.check_subject = true ∧ m.subject ≠ "") <;>
    by_cases h2 : (d.check_sender = true ∧ m.sender ≠ "") <;>
      by_cases h3 : (d.check_recipients = true ∧ m.recipients ≠ []) <;>
        by_cases h4 : (d.check_body = true) <;>
          by_cases h5 : (d.check_date = true ∧ (m.sent_time ≠ none ∨ m.received_time ≠ none)) <;>
            cases hso : m.sent_time.orElse (fun _ => m.received_time) <;>
            simp [h1, h2, h3, h4, h5, hso, List.filterMap]

/-- Witness for the amended C2 on the default configuration and a dated
record. -/
theorem get_message_signature_amended_witness :
    0 < ({ check_date := true } : DuplicateDetector).date_tolerance_minutes
    ∧ DuplicateDetector.get_message_signature { check_date := true }
        { subject := " Hi ", sender := "X@Y", recipients := ["b", "A"],
          sent_time := some ⟨2021, 3, 4, 10, 17, 33, 12⟩ }
      = amendedSignatureOfSpec { check_date := true }
        { subject := " Hi ", sender := "X@Y", recipients := ["b", "A"],
          sent_time := some ⟨2021, 3, 4, 10, 17, 33, 12⟩ } :=
  ⟨by decide,
   get_message_signature_amended { check_date := true }
     { subject := " Hi ", sender := "X@Y", recipients := ["b", "A"],
       sent_time := some ⟨2021, 3, 4, 10, 17, 33, 12⟩ } (by decide)⟩

theorem mem_firstOccurrences (s : String) :
    ∀ (l seen : List String), s ∈ firstOccurrences l seen ↔ (s ∈ l ∧ s ∉ seen)
  | [], seen => by simp [firstOccurrences]
  | x :: t, seen => by
    unfold firstOccurrences
    by_cases hx : x ∈ seen
    · rw [if_pos hx, mem_firstOccurrences s t seen]
      constructor
      · exact fun ⟨h1, h2⟩ => ⟨List.mem_cons_of_mem x h1, h2⟩
      · rintro ⟨h1, h2⟩
        rcases List.mem_cons.mp h1 with rfl | h1
        · exact absurd hx h2
        · exact ⟨h1, h2⟩
    · rw [if_neg hx]
      simp only [List.mem_cons, mem_firstOccurrences s t (x :: seen)]
      constructor
      · rintro (rfl | ⟨h1, h2⟩)
        · exact ⟨Or.inl rfl, hx⟩
        · exact ⟨Or.inr h1, fun hs => h2 (Or.inr hs)⟩
      · rintro ⟨rfl | h1, h2⟩
        · exact Or.inl rfl
        · by_cases hsx : s = x
          · exact Or.inl hsx
          · exact Or.inr ⟨h1, fun hs => hs.elim hsx h2⟩

theorem firstOccurrences_nodup :
    ∀ (l seen : List String), (firstOccurrences l seen).Nodup
  | [], seen => by simp [firstOccurrences]
  | x :: t, seen => by
    unfold firstOccurrences
    by_cases hx : x ∈ seen
    · rw [if_pos hx]; exact firstOccurrences_nodup t seen
    · rw [if_neg hx]
      refine List.nodup_cons.mpr ⟨?_, firstOccurrences_nodup t (x :: seen)⟩
      intro hmem
      exact ((mem_firstOccurrences x t (x :: seen)).mp hmem).2 (List.mem_cons_self x seen)

theorem firstOccurrences_congr :
    ∀ (l seen₁ seen₂ : List String), (∀ s, s ∈ seen₁ ↔ s ∈ seen₂) →
      firstOccurrences l seen₁ = firstOccurrences l seen₂
  | [], _, _, _ => rfl
  | x :: t, seen₁, seen₂, h => by
    unfold firstOccurrences
    by_cases hx : x ∈ seen₁
    · rw [if_pos hx, if_pos ((h x).mp hx)]
      exact firstOccurrences_congr t seen₁ seen₂ h
    · rw [if_neg hx, if_neg (fun hx2 => hx ((h x).mpr hx2))]
      refine congrArg (x :: ·) (firstOccurrences_congr t (x :: seen₁) (x :: seen₂) ?_)
      intro s
      simp only [List.mem_cons]
      exact or_congr Iff.rfl (h s)

theorem firstOccurrences_cons_of_not_mem (x : String) :
    ∀ (l seen : List String), x ∉ l →
      firstOccurrences l (x :: seen) = firstOccurrences l seen
  | [], _, _ => rfl
  | y :: t, seen, hx => by
    have hyx : y ≠ x := fun h => hx (h ▸ List.mem_cons_self y t)
    have hxt : x ∉ t := fun h => hx (List.mem_cons_of_mem y h)
    unfold firstOccurrences
    by_cases hy : y ∈ seen
    · rw [if_pos (List.mem_cons_of_mem x hy), if_pos hy]
      exact firstOccurrences_cons_of_not_mem x t seen hxt
    · rw [if_neg (fun h => (List.mem_cons.mp h).elim hyx hy), if_neg hy]
      refine congrArg (y :: ·) ?_
      rw [firstOccurrences_congr t (y :: x :: seen) (x :: y :: seen)
        (by intro s; simp only [List.mem_cons]; tauto)]
      exact firstOccurrences_cons_of_not_mem x t (y :: seen) hxt

theorem firstOccurrences_of_nodup :
    ∀ (l seen : List String), l.Nodup → (∀ s ∈ l, s ∉ seen) →
      firstOccurrences l seen = l
  | [], _, _, _ => rfl
  | x :: t, seen, hnd, hdis => by
    unfold firstOccurrences
    rw [if_neg (hdis x (List.mem_cons_self x t)),
      firstOccurrences_cons_of_not_mem x t seen (List.nodup_cons.mp hnd).1,
      firstOccurrences_of_nodup t seen (List.nodup_cons.mp hnd).2
        (fun s hs => hdis s (List.mem_cons_of_mem x hs))]

section GroupingLemmas

variable {M : Type}

theorem addToGroups_keys (s : String) (m : M) :
    ∀ g : List (String × List M),
    (addToGroups g s m).map Prod.fst =
      if s ∈ g.map Prod.fst then g.map Prod.fst else g.map Prod.fst ++ [s]
  | [] => by simp [addToGroups]
  | (k, v) :: rest => by
    unfold addToGroups
    by_cases hk : k = s
    · subst hk
      rw [if_pos]
      · simp
      · simp
    · rw [if_neg hk]
      simp only [List.map_cons, addToGroups_keys s m rest]
      by_cases hs : s ∈ rest.map Prod.fst
      · rw [if_pos hs, if_pos (List.mem_cons_of_mem k hs)]
      · rw [if_neg hs, if_neg (fun h => (List.mem_cons.mp h).elim (fun h' => hk h'.symm) hs)]
        simp

theorem lookupGroup_addToGroups (s : String) (m : M) (s' : String) :
    ∀ g : List (String × List M),
    lookupGroup (addToGroups g s m) s' =
      if s' = s then some ((lookupGroup g s).getD [] ++ [m]) else lookupGroup g s'
  | [] => by
    by_cases hs : s' = s
    · subst hs; simp [addToGroups, lookupGroup, if_pos rfl]
    · simp [addToGroups, lookupGroup, if_neg hs, if_neg (fun h : s = s' => hs h.symm)]
  | (k, v) :: rest => by
    unfold addToGroups
    by_cases hk : k = s
    · subst hk
      by_cases hs : s' = k
      · subst hs
        simp [lookupGroup]
      · simp [lookupGroup, if_neg hs, if_neg (fun h : k = s' => hs h.symm)]
    · rw [if_neg hk]
      by_cases hs : s' = k
      · subst hs
        have hne : s' ≠ s := fun h => hk (h.symm ▸ rfl)
        simp [lookupGroup, if_neg hne]
      · simp only [lookupGroup, if_neg (fun h : k = s' => hs h.symm),
          lookupGroup_addToGroups s m s' rest]
        by_cases hss : s' = s
        · subst hss
          rw [if_pos rfl, if_pos rfl, if_neg (fun h : k = s' => hs h.symm)]
        · rw [if_neg hss, if_neg hss]

theorem lookupGroup_eq_none_iff (s : String) :
    ∀ g : List (String × List M), lookupGroup g s = none ↔ s ∉ g.map Prod.fst
  | [] => by simp [lookupGroup]
  | (k, v) :: rest => by
    unfold lookupGroup
    by_cases hk : k = s
    · subst hk
      simp
    · simp only [if_neg hk, lookupGroup_eq_none_iff s rest, List.map_cons, List.mem_cons]
      constructor
      · intro h hmem
        exact hmem.elim (fun h' => hk h'.symm) h
      · intro h hmem
        exact h (Or.inr hmem)

theorem lookupGroup_mem (s : String) (v : List M) :
    ∀ g : List (String × List M), lookupGroup g s = some v → (s, v) ∈ g
  | [] => by simp [lookupGroup]
  | (k, w) :: rest => by
    unfold lookupGroup
    by_cases hk : k = s
    · subst hk
      intro h
      rw [if_pos rfl] at h
      exact Option.some.inj h ▸ List.mem_cons_self _ _
    · rw [if_neg hk]
      intro h
      exact List.mem_cons_of_mem _ (lookupGroup_mem s v rest h)

theorem lookupGroup_of_mem_nodup (k : String) (v : List M) :
    ∀ g : List (String × List M), (g.map Prod.fst).Nodup → (k, v) ∈ g →
      lookupGroup g k = some v
  | [] => by simp
  | (k0, v0) :: rest => by
    intro hnd hmem
    unfold lookupGroup
    rcases List.mem_cons.mp hmem with heq | hmem'
    · rw [Prod.mk.injEq] at heq
      rw [heq.1, if_pos rfl, heq.2]
    · by_cases hk : k0 = k
      · subst hk
        exfalso
        have : k0 ∈ rest.map Prod.fst :=
          List.mem_map.mpr ⟨(k0, v), hmem', rfl⟩
        exact (List.nodup_cons.mp (by simpa using hnd)).1 this
      · rw [if_neg hk]
        exact lookupGroup_of_mem_nodup k v rest (List.nodup_cons.mp (by simpa using hnd)).2 hmem'

end GroupingLemmas

section SignatureGroupsLemmas

variable {M : Type}

/-- One grouping step preserves the dict invariant: nodup keys together with
the bucket characterization (bucket of `s` = all processed messages of
signature `s`). -/
theorem addToGroups_step_inv (sig : M → String) (m : M) (p : List M)
    (g : List (String × List M))
    (hnd : (g.map Prod.fst).Nodup)
    (hlk : ∀ s, lookupGroup g s =
      if s ∈ p.map sig then some (p.filter (fun x => sig x = s)) else none) :
    ((addToGroups g (sig m) m).map Prod.fst).Nodup ∧
    (∀ s, lookupGroup (addToGroups g (sig m) m) s =
      if s ∈ (p ++ [m]).map sig then
        some ((p ++ [m]).filter (fun x => sig x = s)) else none) := by
  have hkeys : ∀ s, s ∈ g.map Prod.fst ↔ s ∈ p.map sig := by
    intro s
    constructor
    · intro hmem
      by_contra hnmem
      have := hlk s
      rw [if_neg hnmem] at this
      exact ((lookupGroup_eq_none_iff s g).mp this) hmem
    · intro hmem
      by_contra hnmem
      have := (lookupGroup_eq_none_iff s g).mpr hnmem
      rw [hlk s, if_pos hmem] at this
      exact Option.noConfusion this
  constructor
  · rw [addToGroups_keys]
    by_cases hin : sig m ∈ g.map Prod.fst
    · rwa [if_pos hin]
    · rw [if_neg hin]
      simp [List.nodup_append, hnd, hin]
  · intro s
    rw [lookupGroup_addToGroups]
    by_cases hs : s = sig m
    · subst hs
      rw [if_pos rfl, if_pos (by simp), hlk (sig m)]
      by_cases hin : sig m ∈ p.map sig
      · rw [if_pos hin]
        simp only [Option.getD_some]
        rw [List.filter_append]
        simp
      · rw [if_neg hin]
        simp only [Option.getD_none]
        rw [List.filter_append]
        have hfil : p.filter (fun x => sig x = sig m) = [] := by
          rw [List.filter_eq_nil_iff]
          intro a ha hsig
          exact hin (List.mem_map.mpr ⟨a, ha, by simpa using hsig⟩)
        simp [hfil]
    · rw [if_neg hs, hlk s]
      have hmm : s ∈ (p ++ [m]).map sig ↔ s ∈ p.map sig := by
        simp only [List.map_append, List.mem_append, List.map_cons, List.map_nil,
          List.mem_singleton, List.mem_cons, List.not_mem_nil, or_false]
        constructor
        · rintro (h | h)
          · exact h
          · exact absurd h hs
        · exact Or.inl
      rw [List.filter_append]
      have hfil : [m].filter (fun x => sig x = s) = [] := by
        rw [List.filter_eq_nil_iff]
        intro a ha hdec
        rw [List.mem_singleton] at ha
        subst ha
        exact hs (of_decide_eq_true hdec).symm
      rw [hfil, List.append_nil]
      by_cases hin : s ∈ p.map sig
      · rw [if_pos hin, if_pos (hmm.mpr hin)]
      · rw [if_neg hin, if_neg (fun h => hin (hmm.mp h))]

/-- The grouping fold preserves the dict invariant. -/
theorem signatureGroups_fold_inv (sig : M → String) :
    ∀ (l p : List M) (g : List (String × List M)),
    (g.map Prod.fst).Nodup →
    (∀ s, lookupGroup g s =
      if s ∈ p.map sig then some (p.filter (fun x => sig x = s)) else none) →
    ((l.foldl (fun groups m => addToGroups groups (sig m) m) g).map Prod.fst).Nodup ∧
    (∀ s, lookupGroup (l.foldl (fun groups m => addToGroups groups (sig m) m) g) s =
      if s ∈ (p ++ l).map sig then
        some ((p ++ l).filter (fun x => sig x = s)) else none)
  | [], p, g, hnd, hlk => by
    simp only [List.foldl_nil, List.append_nil]
    exact ⟨hnd, hlk⟩
  | m :: t, p, g, hnd, hlk => by
    have step := addToGroups_step_inv sig m p g hnd hlk
    have rec := signatureGroups_fold_inv sig t (p ++ [m]) (addToGroups g (sig m) m)
      step.1 step.2
    refine ⟨rec.1, fun s => ?_⟩
    have := rec.2 s
    rwa [List.append_assoc, List.singleton_append] at this

/-- The keys of `signatureGroups` are distinct. -/
theorem signatureGroups_nodupKeys (sig : M → String) (l : List M) :
    ((signatureGroups sig l).map Prod.fst).Nodup :=
  (signatureGroups_fold_inv sig l [] [] (by simp) (by intro s; simp [lookupGroup])).1

/-- Looking up a signature in `signatureGroups` yields exactly the messages
with that signature, in input order. -/
theorem signatureGroups_lookup (sig : M → String) (l : List M) (s : String) :
    lookupGroup (signatureGroups sig l) s =
      if s ∈ l.map sig then some (l.filter (fun x => sig x = s)) else none := by
  have := (signatureGroups_fold_inv sig l [] [] (by simp) (by intro s; simp [lookupGroup])).2 s
  simpa using this

/-- Every group of `signatureGroups` is the nonempty filter of the input by
its own key, and the key occurs among the input signatures. -/
theorem signatureGroups_bucket (sig : M → String) (l : List M)
    (gp : String × List M) (hmem : gp ∈ signatureGroups sig l) :
    gp.2 = l.filter (fun x => sig x = gp.1) ∧ gp.1 ∈ l.map sig := by
  have hlk : lookupGroup (signatureGroups sig l) gp.1 = some gp.2 :=
    lookupGroup_of_mem_nodup gp.1 gp.2 _ (signatureGroups_nodupKeys sig l)
      (by rcases gp with ⟨k, v⟩; exact hmem)
  rw [signatureGroups_lookup] at hlk
  by_cases hin : gp.1 ∈ l.map sig
  · rw [if_pos hin] at hlk
    exact ⟨(Option.some.inj hlk).symm, hin⟩
  · rw [if_neg hin] at hlk
    exact Option.noConfusion hlk

/-- Adding one message grows the total bucket size by one. -/
theorem addToGroups_sumLen (s : String) (m : M) :
    ∀ g : List (String × List M),
    ((addToGroups g s m).map (fun gp => gp.2.length)).sum =
      (g.map (fun gp => gp.2.length)).sum + 1
  | [] => by simp [addToGroups]
  | (k, v) :: rest => by
    unfold addToGroups
    by_cases hk : k = s
    · rw [if_pos hk]
      simp only [List.map_cons, List.sum_cons, List.length_append, List.length_cons,
        List.length_nil]
      omega
    · rw [if_neg hk]
      simp only [List.map_cons, List.sum_cons, addToGroups_sumLen s m rest]
      omega

/-- The buckets of `signatureGroups` partition the input: their sizes sum to
the input length. -/
theorem signatureGroups_sumLen (sig : M → String) (l : List M) :
    ((signatureGroups sig l).map (fun gp => gp.2.length)).sum = l.length := by
  suffices h : ∀ (t : List M) (g : List (String × List M)),
      ((t.foldl (fun groups m => addToGroups groups (sig m) m) g).map
        (fun gp => gp.2.length)).sum = (g.map (fun gp => gp.2.length)).sum + t.length by
    simpa using h l []
  intro t
  induction t with
  | nil => intro g; simp
  | cons m t ih =>
    intro g
    simp only [List.foldl_cons, ih (addToGroups g (sig m) m), addToGroups_sumLen,
      List.length_cons]
    omega

/-- The number of groups equals the number of distinct signatures. -/
theorem signatureGroups_length (sig : M → String) (l : List M) :
    (signatureGroups sig l).length = (firstOccurrences (l.map sig) []).length := by
  rw [← List.length_map (signatureGroups sig l) Prod.fst]
  refine ((List.perm_ext_iff_of_nodup (signatureGroups_nodupKeys sig l)
    (firstOccurrences_nodup (l.map sig) [])).mpr ?_).length_eq
  intro s
  rw [mem_firstOccurrences]
  constructor
  · intro hmem
    have hlk : lookupGroup (signatureGroups sig l) s ≠ none := by
      rw [Ne, lookupGroup_eq_none_iff]
      exact fun h => h hmem
    rw [signatureGroups_lookup] at hlk
    by_cases hin : s ∈ l.map sig
    · exact ⟨hin, by simp⟩
    · rw [if_neg hin] at hlk; exact absurd rfl hlk
  · rintro ⟨hin, -⟩
    by_contra hmem
    have := (lookupGroup_eq_none_iff s (signatureGroups sig l)).mpr hmem
    rw [signatureGroups_lookup, if_pos hin] at this
    exact Option.noConfusion this

/-- Count of one signature among the mapped signatures is the size of its
filter bucket. -/
theorem count_map_sig (sig : M → String) (s : String) :
    ∀ l : List M, (l.map sig).count s = (l.filter (fun x => sig x = s)).length
  | [] => rfl
  | m :: t => by
    rw [List.map_cons, List.count_cons, count_map_sig sig s t]
    by_cases h : sig m = s
    · simp only [List.filter_cons, h]
      simp
    · simp only [List.filter_cons]
      rw [if_neg (by simpa using h)]
      simp [h]

end SignatureGroupsLemmas

/-- A fold that at each step keeps either the accumulator or the new element
ends on a member of the initial element, or the list. -/
theorem foldl_choice_mem {M : Type} (f : M → M → M)
    (hf : ∀ a b, f a b = a ∨ f a b = b) :
    ∀ (xs : List M) (x : M), xs.foldl f x ∈ x :: xs
  | [], x => List.mem_cons_self x []
  | y :: t, x => by
    rw [List.foldl_cons]
    have h := foldl_choice_mem f hf t (f x y)
    rcases List.mem_cons.mp h with heq | hmem
    · rcases hf x y with h1 | h1
      · rw [heq, h1]; exact List.mem_cons_self _ _
      · rw [heq, h1]
        exact List.mem_cons_of_mem _ (List.mem_cons_self _ _)
    · exact List.mem_cons_of_mem _ (List.mem_cons_of_mem _ hmem)

/-- `max(l, key=...)` returns a member. -/
theorem pyMaxBy_mem {M : Type} (key : M → PyDateTime) (l : List M) (m : M)
    (h : pyMaxBy key l = some m) : m ∈ l := by
  cases l with
  | nil => exact Option.noConfusion h
  | cons x xs =>
    have hm := Option.some.inj h
    rw [← hm]
    exact foldl_choice_mem _ (fun a b => by by_cases hlt : pyDateTimeLt (key a) (key b) <;>
      simp [hlt]) xs x

/-- `min(l, key=...)` returns a member. -/
theorem pyMinBy_mem {M : Type} (key : M → PyDateTime) (l : List M) (m : M)
    (h : pyMinBy key l = some m) : m ∈ l := by
  cases l with
  | nil => exact Option.noConfusion h
  | cons x xs =>
    have hm := Option.some.inj h
    rw [← hm]
    exact foldl_choice_mem _ (fun a b => by by_cases hlt : pyDateTimeLt (key b) (key a) <;>
      simp [hlt]) xs x

theorem head?_mem_of_ne_nil {M : Type} (l : List M) (hl : l ≠ []) :
    ∃ m ∈ l, l.head? = some m := by
  cases l with
  | nil => exact absurd rfl hl
  | cons x t => exact ⟨x, List.mem_cons_self x t, rfl⟩

theorem pyMaxBy_some {M : Type} (key : M → PyDateTime) (l : List M) (hl : l ≠ []) :
    ∃ m, pyMaxBy key l = some m := by
  cases l with
  | nil => exact absurd rfl hl
  | cons x xs => exact ⟨_, rfl⟩

theorem pyMinBy_some {M : Type} (key : M → PyDateTime) (l : List M) (hl : l ≠ []) :
    ∃ m, pyMinBy key l = some m := by
  cases l with
  | nil => exact absurd rfl hl
  | cons x xs => exact ⟨_, rfl⟩

/-- `_select_message_to_keep` on a nonempty group yields a member of the
group, whatever the strategy. -/
theorem select_message_to_keep_mem (g : List EmailMessage) (strat : String)
    (hne : g ≠ []) : ∃ m ∈ g, select_message_to_keep g strat = some m := by
  unfold select_message_to_keep
  by_cases h1 : strat = "first"
  · rw [if_pos h1]; exact head?_mem_of_ne_nil g hne
  rw [if_neg h1]
  by_cases h2 : strat = "last"
  · rw [if_pos h2]
    exact ⟨g.getLast hne, List.getLast_mem hne, List.getLast?_eq_getLast g hne⟩
  rw [if_neg h2]
  by_cases h3 : strat = "newest"
  · rw [if_pos h3]
    by_cases hwd : g.filter (fun msg => hasDate msg) ≠ []
    · rw [if_pos hwd]
      obtain ⟨m, hm⟩ := pyMaxBy_some effectiveDate _ hwd
      exact ⟨m, (List.mem_filter.mp (pyMaxBy_mem effectiveDate _ m hm)).1, hm⟩
    · rw [if_neg hwd]; exact head?_mem_of_ne_nil g hne
  rw [if_neg h3]
  by_cases h4 : strat = "oldest"
  · rw [if_pos h4]
    by_cases hwd : g.filter (fun msg => hasDate msg) ≠ []
    · rw [if_pos hwd]
      obtain ⟨m, hm⟩ := pyMinBy_some effectiveDate _ hwd
      exact ⟨m, (List.mem_filter.mp (pyMinBy_mem effectiveDate _ m hm)).1, hm⟩
    · rw [if_neg hwd]; exact head?_mem_of_ne_nil g hne
  rw [if_neg h4]
  exact head?_mem_of_ne_nil g hne

/-- The survivor loop of `remove_duplicates` keeps exactly the first
occurrence of each signature: its output signatures are the first
occurrences of the remaining input signatures outside the processed set. -/
theorem removeDupLoop_map_sig (sig : EmailMessage → String)
    (dups : List (String × List EmailMessage)) (strat : String)
    (hgrp : ∀ s ∈ dups.map Prod.fst,
      ∃ g, lookupGroup dups s = some g ∧ g ≠ [] ∧ ∀ m ∈ g, sig m = s) :
    ∀ (rest : List EmailMessage) (processed : List String),
    (∀ s ∈ processed, s ∈ dups.map Prod.fst) →
    (∀ s, s ∉ dups.map Prod.fst → ((rest.map sig).count s ≤ 1)) →
    (removeDupLoop sig dups strat rest processed).map sig =
      firstOccurrences (rest.map sig) processed
  | [], processed, _, _ => rfl
  | m :: t, processed, hproc, hcount => by
    have hmono : ∀ s, ((t.map sig).count s) ≤ (((m :: t).map sig).count s) := by
      intro s
      rw [List.map_cons, List.count_cons]
      split <;> omega
    have hcount' : ∀ s, s ∉ dups.map Prod.fst → ((t.map sig).count s ≤ 1) :=
      fun s hs => le_trans (hmono s) (hcount s hs)
    rw [List.map_cons]
    unfold removeDupLoop firstOccurrences
    by_cases hd : sig m ∈ dups.map Prod.fst
    · rw [if_pos (by simpa using hd)]
      by_cases hp : sig m ∈ processed
      · rw [if_pos (by simpa using hp), if_pos hp]
        exact removeDupLoop_map_sig sig dups strat hgrp t processed hproc hcount'
      · rw [if_neg (by simpa using hp), if_neg hp]
        obtain ⟨g, hlk, hne, hall⟩ := hgrp (sig m) hd
        rw [hlk]
        obtain ⟨kept, hkmem, hksel⟩ := select_message_to_keep_mem g strat hne
        simp only [Option.getD_some]
        rw [hksel, List.map_cons, hall kept hkmem]
        refine congrArg (sig m :: ·) ?_
        exact removeDupLoop_map_sig sig dups strat hgrp t (sig m :: processed)
          (fun s hs => (List.mem_cons.mp hs).elim (fun h => h ▸ hd) (hproc s)) hcount'
    · rw [if_neg (by simpa using hd), List.map_cons]
      have hnp : sig m ∉ processed := fun h => hd (hproc (sig m) h)
      rw [if_neg hnp]
      refine congrArg (sig m :: ·) ?_
      have hnt : sig m ∉ t.map sig := by
        have h1 := hcount (sig m) hd
        rw [List.map_cons, List.count_cons] at h1
        rw [← List.count_eq_zero]
        rw [if_pos (by simp)] at h1
        omega
      rw [firstOccurrences_cons_of_not_mem (sig m) (t.map sig) processed hnt]
      exact removeDupLoop_map_sig sig dups strat hgrp t processed hproc hcount'

/-- The signatures of the deduplicated output are exactly the first
occurrences of the input signatures, in input order. -/
theorem removeDuplicatesBy_map_sig (sig : EmailMessage → String)
    (messages : List EmailMessage) (strat : String) :
    ((if findDuplicatesBy sig messages = [] then messages
      else removeDupLoop sig (findDuplicatesBy sig messages) strat messages []).map sig) =
      firstOccurrences (messages.map sig) [] := by
  by_cases hdup : findDuplicatesBy sig messages = []
  · rw [if_pos hdup]
    have hle : ∀ s, (messages.map sig).count s ≤ 1 := by
      intro s
      by_cases hin : s ∈ messages.map sig
      · have hlk := signatureGroups_lookup sig messages s
        rw [if_pos hin] at hlk
        have hmem := lookupGroup_mem s _ _ hlk
        have hnotdup : ¬ (1 < (messages.filter (fun x => sig x = s)).length) := by
          intro hlt
          have hd : (s, messages.filter (fun x => sig x = s)) ∈ findDuplicatesBy sig messages := by
            unfold findDuplicatesBy
            rw [List.mem_filter]
            exact ⟨hmem, by simpa using hlt⟩
          rw [hdup] at hd
          exact absurd hd (List.not_mem_nil _)
        rw [count_map_sig]
        omega
      · rw [List.count_eq_zero_of_not_mem hin]
        omega
    have hnd : (messages.map sig).Nodup := List.nodup_iff_count_le_one.mpr hle
    rw [firstOccurrences_of_nodup _ [] hnd (by simp)]
  · rw [if_neg hdup]
    have hndk : ((findDuplicatesBy sig messages).map Prod.fst).Nodup := by
      have hsub : ((findDuplicatesBy sig messages).map Prod.fst).Sublist
          ((signatureGroups sig messages).map Prod.fst) :=
        (List.filter_sublist _).map _
      exact hsub.nodup (signatureGroups_nodupKeys sig messages)
    apply removeDupLoop_map_sig
    · intro s hs
      obtain ⟨gp, hgp, hfst⟩ := List.mem_map.mp hs
      have hgrpmem : gp ∈ signatureGroups sig messages :=
        (List.mem_filter.mp hgp).1
      have hchar := signatureGroups_bucket sig messages gp hgrpmem
      have hlkd : lookupGroup (findDuplicatesBy sig messages) s = some gp.2 := by
        apply lookupGroup_of_mem_nodup _ _ _ hndk
        rcases gp with ⟨k, v⟩
        cases hfst
        exact hgp
      have hlen : 1 < gp.2.length := by
        have := (List.mem_filter.mp hgp).2
        simpa using this
      refine ⟨gp.2, hlkd, ?_, ?_⟩
      · intro hnil
        rw [hnil] at hlen
        simp at hlen
      · intro m hm
        rw [hchar.1] at hm
        have hd := (List.mem_filter.mp hm).2
        rw [← hfst]
        exact of_decide_eq_true hd
    · intro s hs
      exact absurd hs (List.not_mem_nil s)
    · intro s hs
      by_cases hin : s ∈ messages.map sig
      · have hlk := signatureGroups_lookup sig messages s
        rw [if_pos hin] at hlk
        have hmem := lookupGroup_mem s _ _ hlk
        by_cases hlen : 1 < (messages.filter (fun x => sig x = s)).length
        · exfalso
          apply hs
          apply List.mem_map.mpr
          refine ⟨(s, messages.filter (fun x => sig x = s)), ?_, rfl⟩
          unfold findDuplicatesBy
          rw [List.mem_filter]
          exact ⟨hmem, by simpa using hlen⟩
        · rw [count_map_sig]
          omega
      · rw [List.count_eq_zero_of_not_mem hin]
        omega

/-- Specialization to the detector's own signature function. -/
theorem remove_duplicates_map_sig (d : DuplicateDetector)
    (messages : List EmailMessage) (strat : String) :
    (d.remove_duplicates messages strat).map d.get_message_signature =
      firstOccurrences (messages.map d.get_message_signature) [] := by
  unfold DuplicateDetector.remove_duplicates DuplicateDetector.find_duplicates
  exact removeDuplicatesBy_map_sig d.get_message_signature messages strat

/-- With nonempty buckets, the sum of `(size − 1)` plus the number of groups
equals the sum of sizes. -/
theorem sum_len_pred_add_length {M : Type} :
    ∀ gs : List (String × List M), (∀ gp ∈ gs, gp.2 ≠ []) →
    ((gs.map (fun gp => gp.2.length - 1)).sum + gs.length =
      (gs.map (fun gp => gp.2.length)).sum)
  | [], _ => rfl
  | gp :: rest, h => by
    have hpos : 0 < gp.2.length :=
      List.length_pos.mpr (h gp (List.mem_cons_self gp rest))
    have ih := sum_len_pred_add_length rest
      (fun g hg => h g (List.mem_cons_of_mem gp hg))
    simp only [List.map_cons, List.sum_cons, List.length_cons]
    omega

/-- Groups of size one contribute zero, so the duplicate-group sum of
`(size − 1)` equals the sum over all groups. -/
theorem sum_pred_filter_eq {M : Type} :
    ∀ gs : List (String × List M),
    ((gs.filter (fun g => 1 < g.2.length)).map (fun g => g.2.length - 1)).sum =
      (gs.map (fun g => g.2.length - 1)).sum
  | [] => rfl
  | gp :: rest => by
    rw [List.filter_cons]
    by_cases hlen : 1 < gp.2.length
    · rw [if_pos (by simpa using hlen)]
      simp only [List.map_cons, List.sum_cons, sum_pred_filter_eq rest]
    · rw [if_neg (by simpa using hlen)]
      simp only [List.map_cons, List.sum_cons, sum_pred_filter_eq rest]
      omega

/-- C3: in the output of `remove_duplicates`, every distinct input signature
appears on exactly one record, and the output length equals the input length
minus the sum over duplicate groups of (group size − 1), for every
configuration (with a positive date tolerance) and survivor-selection
policy. -/
theorem remove_duplicates_unique_signatures (d : DuplicateDetector)
    (messages : List EmailMessage) (keep_strategy : String)
    (_htol : 0 < d.date_tolerance_minutes) :
    (∀ s ∈ messages.map d.get_message_signature,
      ((d.remove_duplicates messages keep_strategy).map d.get_message_signature).count s = 1)
    ∧ (d.remove_duplicates messages keep_strategy).length =
        messages.length -
          ((d.find_duplicates messages).map (fun g => g.2.length - 1)).sum := by
  have hmap := remove_duplicates_map_sig d messages keep_strategy
  constructor
  · intro s hs
    rw [hmap]
    exact List.count_eq_one_of_mem (firstOccurrences_nodup _ _)
      ((mem_firstOccurrences s _ []).mpr ⟨hs, by simp⟩)
  · have hlen1 : (d.remove_duplicates messages keep_strategy).length =
        (firstOccurrences (messages.map d.get_message_signature) []).length := by
      rw [← List.length_map (d.remove_duplicates messages keep_strategy)
        d.get_message_signature, hmap]
    have hsum := signatureGroups_sumLen d.get_message_signature messages
    have hglen := signatureGroups_length d.get_message_signature messages
    have hnonempty : ∀ gp ∈ signatureGroups d.get_message_signature messages,
        gp.2 ≠ [] := by
      intro gp hgp hnil
      have hb := signatureGroups_bucket _ _ gp hgp
      obtain ⟨x, hx, hxs⟩ := List.mem_map.mp hb.2
      have hmem : x ∈ gp.2 := by
        rw [hb.1]
        exact List.mem_filter.mpr ⟨hx, by simpa using hxs⟩
      rw [hnil] at hmem
      exact absurd hmem (List.not_mem_nil x)
    have h1 := sum_len_pred_add_length _ hnonempty
    have h2 := sum_pred_filter_eq (signatureGroups d.get_message_signature messages)
    have hfd : d.find_duplicates messages =
        (signatureGroups d.get_message_signature messages).filter
          (fun g => 1 < g.2.length) := rfl
    rw [hlen1, hfd, h2]
    have hml : (messages.map d.get_message_signature).length = messages.length :=
      List.length_map messages d.get_message_signature
    omega

/-- Witness for C3 on the default configuration, a two-element duplicate
pair, and the `first` strategy. -/
theorem remove_duplicates_unique_signatures_witness :
    0 < ({} : DuplicateDetector).date_tolerance_minutes
    ∧ ((∀ s ∈ ([{ subject := "a", sender := "x", recipients := [] },
                { subject := "a", sender := "x", recipients := [] }] :
                List EmailMessage).map
            ({} : DuplicateDetector).get_message_signature,
        ((({} : DuplicateDetector).remove_duplicates
            [{ subject := "a", sender := "x", recipients := [] },
             { subject := "a", sender := "x", recipients := [] }] "first").map
          ({} : DuplicateDetector).get_message_signature).count s = 1)
      ∧ (({} : DuplicateDetector).remove_duplicates
          [{ subject := "a", sender := "x", recipients := [] },
           { subject := "a", sender := "x", recipients := [] }] "first").length =
          ([{ subject := "a", sender := "x", recipients := [] },
            { subject := "a", sender := "x", recipients := [] }] :
            List EmailMessage).length -
            ((({} : DuplicateDetector).find_duplicates
              [{ subject := "a", sender := "x", recipients := [] },
               { subject := "a", sender := "x", recipients := [] }]).map
              (fun g => g.2.length - 1)).sum) :=
  ⟨by decide,
   remove_duplicates_unique_signatures {}
     [{ subject := "a", sender := "x", recipients := [] },
      { subject := "a", sender := "x", recipients := [] }] "first" (by decide)⟩

/-- A pass of `remove_duplicates` over records with no duplicate signatures
returns the input unchanged. -/
theorem remove_duplicates_of_no_dups (d : DuplicateDetector)
    (l : List EmailMessage) (strat : String) (h : d.find_duplicates l = []) :
    d.remove_duplicates l strat = l := by
  unfold DuplicateDetector.remove_duplicates
  simp [h]

/-- C7: deduplication is idempotent — applying `remove_duplicates` to its own
output (under any second strategy) returns that output unchanged. -/
theorem remove_duplicates_idempotent (d : DuplicateDetector)
    (messages : List EmailMessage) (strat strat' : String)
    (_htol : 0 < d.date_tolerance_minutes) :
    d.remove_duplicates (d.remove_duplicates messages strat) strat' =
      d.remove_duplicates messages strat := by
  have hmap := remove_duplicates_map_sig d messages strat
  have hnd : ((d.remove_duplicates messages strat).map d.get_message_signature).Nodup := by
    rw [hmap]
    exact firstOccurrences_nodup _ _
  have hle := List.nodup_iff_count_le_one.mp hnd
  have hfd : d.find_duplicates (d.remove_duplicates messages strat) = [] := by
    unfold DuplicateDetector.find_duplicates findDuplicatesBy
    rw [List.filter_eq_nil_iff]
    intro gp hgp
    have hb := signatureGroups_bucket _ _ gp hgp
    have hcount := hle gp.1
    rw [count_map_sig d.get_message_signature gp.1] at hcount
    simp only [decide_eq_true_eq]
    rw [hb.1]
    omega
  exact remove_duplicates_of_no_dups d _ strat' hfd

/-- Witness for C7 on the default configuration and a concrete duplicate
pair. -/
theorem remove_duplicates_idempotent_witness :
    0 < ({} : DuplicateDetector).date_tolerance_minutes
    ∧ ({} : DuplicateDetector).remove_duplicates
        (({} : DuplicateDetector).remove_duplicates
          [{ subject := "a", sender := "x", recipients := [] },
           { subject := "a", sender := "x", recipients := [] }] "last") "first" =
      ({} : DuplicateDetector).remove_duplicates
        [{ subject := "a", sender := "x", recipients := [] },
         { subject := "a", sender := "x", recipients := [] }] "last" :=
  ⟨by decide,
   remove_duplicates_idempotent {}
     [{ subject := "a", sender := "x", recipients := [] },
      { subject := "a", sender := "x", recipients := [] }] "last" "first" (by decide)⟩
